import Mathlib

/-!
Shallow embedding of `src/ochre/Models/Water-PCM.py` (class `TankWithPCM`,
a stratified water-tank thermal model augmented with one phase-change-material
node), together with proofs about its RC-parameter augmentation
(`load_rc_data`), per-step input composition (`update_inputs`), and result
reporting (`generate_results`).

Modelling conventions:
- Python floats are modelled as rationals (`ℚ`); the arithmetic of the module
  is exact over its inputs, so `ℚ` captures it faithfully up to rounding.
- The Python `dict` of RC parameters and of results is modelled as an
  association list `List (String × ℚ)` with first-match lookup semantics.
- `numpy` arrays (volume fractions, heat injections, states) are `List ℚ`.
- Exceptions (`KeyError`, `NotImplementedError`, `ValueError` from `.index`)
  are modelled with `Except String`.
- The base class `StratifiedWaterModel` is not part of the given sources; its
  contributions (the base RC mapping, the water-draw heats, the schedule
  update) enter as parameters / record fields, as the spec describes them.
-/

/-- Water density in kg/m^3 (module-level constant `water_density`). -/
def water_density : ℚ := 1000

/-- Water density in kg/L (`water_density_liters`). -/
def water_density_liters : ℚ := 1

/-- Water specific heat in kJ/kg-K (`water_cp`). -/
def water_cp : ℚ := 4.183

/-- Water conductivity in W/m-K (`water_conductivity`). -/
def water_conductivity : ℚ := 0.6406

/-- Water volumetric heat capacity, J/K-L (`water_c`). -/
def water_c : ℚ := water_cp * water_density_liters * 1000

/-- PCM phase property record: the Python module holds two dicts `solid` and
`liquid` with these five keys. -/
structure PCMProperties where
  pcm_density : ℚ
  pcm_density_liters : ℚ
  pcm_cp : ℚ
  pcm_conductivity : ℚ
  pcm_c : ℚ
deriving DecidableEq

/-- Solid-phase PCM properties (module dict `solid`). -/
def solid : PCMProperties :=
  { pcm_density := 904
    pcm_density_liters := 0.904
    pcm_cp := 1.9
    pcm_conductivity := 0.28
    pcm_c := 1717.6 }

/-- Liquid-phase PCM properties (module dict `liquid`). -/
def liquid : PCMProperties :=
  { pcm_density := 829
    pcm_density_liters := 0.829
    pcm_cp := 2.2
    pcm_conductivity := 0.16
    pcm_c := 1823.8 }

/-- PCM transition temperature in C (`pcm_transition`). -/
def pcm_transition : ℚ := 53

/-- First-match lookup in a Python-dict association list (`d[k]` read). -/
def dictGet : List (String × ℚ) → String → Option ℚ
  | [], _ => none
  | (k', v) :: rest, k => if k' = k then some v else dictGet rest k

/-- Python-dict write `d[k] = v`: replace the first binding of `k`, or append
a new binding when absent. -/
def dictSet : List (String × ℚ) → String → ℚ → List (String × ℚ)
  | [], k, v => [(k, v)]
  | (k', v') :: rest, k, v =>
    if k' = k then (k, v) :: rest else (k', v') :: dictSet rest k v

/-- Python in-place scaling `d[k] *= c`. Python raises `KeyError` when `k` is
absent; theorems that rely on the scaled entry carry a presence hypothesis,
and on an absent key this model leaves the dict unchanged. -/
def dictMulAt : List (String × ℚ) → String → ℚ → List (String × ℚ)
  | [], _, _ => []
  | (k', v') :: rest, k, c =>
    if k' = k then (k, v' * c) :: rest else (k', v') :: dictMulAt rest k c

/-- In-place `a[i] += q` on a numpy vector (out-of-range is a no-op here;
Python would raise, and claims always use in-range indices). -/
def listAddAt (l : List ℚ) (i : ℕ) (q : ℚ) : List ℚ :=
  l.set i (l.getD i 0 + q)

/-- In-place `a[i] -= q` on a numpy vector. -/
def listSubAt (l : List ℚ) (i : ℕ) (q : ℚ) : List ℚ :=
  l.set i (l.getD i 0 - q)

/-- The f-string key `f"C_WH{p+1}"` of the host water node's capacitance. -/
def hostCKey (p : ℕ) : String := "C_WH" ++ toString (p + 1)

/-- The f-string key `f"R_PCM_WH{p+1}"` of the PCM-to-host resistance. -/
def hostRKey (p : ℕ) : String := "R_PCM_WH" ++ toString (p + 1)

/-- State of a `TankWithPCM` instance. Fields `volume`, `vol_fractions`,
`state_names`, `input_names`, `n_nodes`, `verbosity`, `states`,
`h_injections`, `inputs_init`, `current_schedule` are owned by the base
`StratifiedWaterModel`; `pcm_water_node`, `pcm_vol_fraction`, `t_pcm_idx`,
`h_pcm_idx`, `pcm_heat_to_water` are set by `TankWithPCM.__init__`.
`pcm_heat_xfer_impl` models the abstract PCM heat-transfer capability: `none`
when no subclass supplies an implementation (the base class raises
`NotImplementedError`), `some q` when a concrete subclass would return flux
`q` for the current state. `water_draw_heats` is the per-node injection
vector the base collaborator `update_water_draw` returns this step. -/
structure TankWithPCM where
  volume : ℚ
  vol_fractions : List ℚ
  pcm_water_node : ℕ
  pcm_vol_fraction : ℚ
  t_pcm_idx : ℕ
  h_pcm_idx : ℕ
  state_names : List String
  input_names : List String
  n_nodes : ℕ
  verbosity : ℕ
  states : List ℚ
  h_injections : ℚ
  inputs_init : List ℚ
  current_schedule : List (String × ℚ)
  pcm_heat_to_water : Option ℚ
  pcm_heat_xfer_impl : Option ℚ
  water_draw_heats : List ℚ
deriving DecidableEq

/-- Data the base `StratifiedWaterModel.__init__` establishes before
`TankWithPCM.__init__` runs its own lines (the base class is outside the
given sources; these are its outputs, as the spec's interface section lists
them). -/
structure BaseTankData where
  volume : ℚ
  vol_fractions : List ℚ
  state_names : List String
  input_names : List String
  n_nodes : ℕ
  verbosity : ℕ
  states : List ℚ
  h_injections : ℚ
  inputs_init : List ℚ
  current_schedule : List (String × ℚ)
  water_draw_heats : List ℚ
deriving DecidableEq

/-- `TankWithPCM.__init__(pcm_water_node, pcm_vol_fraction)`: stores the two
configuration fields unconditionally (no range validation appears in the
source), resolves `state_names.index("T_PCM")` and
`input_names.index("H_PCM")` (Python `.index` raises `ValueError` when the
name is absent), and sets `pcm_heat_to_water = None`. -/
def mk_tank (pcm_water_node : ℕ) (pcm_vol_fraction : ℚ) (b : BaseTankData) :
    Except String TankWithPCM :=
  match b.state_names.findIdx? (fun s => s = "T_PCM") with
  | none => Except.error "ValueError"
  | some ti =>
    match b.input_names.findIdx? (fun s => s = "H_PCM") with
    | none => Except.error "ValueError"
    | some hi =>
      Except.ok
        { volume := b.volume
          vol_fractions := b.vol_fractions
          pcm_water_node := pcm_water_node
          pcm_vol_fraction := pcm_vol_fraction
          t_pcm_idx := ti
          h_pcm_idx := hi
          state_names := b.state_names
          input_names := b.input_names
          n_nodes := b.n_nodes
          verbosity := b.verbosity
          states := b.states
          h_injections := b.h_injections
          inputs_init := b.inputs_init
          current_schedule := b.current_schedule
          pcm_heat_to_water := none
          pcm_heat_xfer_impl := none
          water_draw_heats := b.water_draw_heats }

/-- `TankWithPCM.load_rc_data`: takes the base solver's RC mapping
(`super().load_rc_data(...)`, a parameter here since the base class is
outside the given sources) and
1. adds `C_PCM = solid["pcm_c"] * pcm_volume` with
   `pcm_volume = volume * vol_fractions[pcm_water_node] * pcm_vol_fraction`,
2. mutates `volume -= pcm_volume`,
   `vol_fractions[pcm_water_node] *= 1 - pcm_vol_fraction`, and
   renormalizes `vol_fractions /= sum(vol_fractions)`,
3. scales `C_WH{p+1}` by `1 - pcm_vol_fraction`,
4. adds `R_PCM_WH{p+1} = pcm_volume / solid["pcm_conductivity"]`.
Returns the augmented mapping with the mutated tank state. -/
def load_rc_data (t : TankWithPCM) (base_rc : List (String × ℚ)) :
    List (String × ℚ) × TankWithPCM :=
  let pcm_node_vol_fraction := t.vol_fractions.getD t.pcm_water_node 0
  let pcm_volume := t.volume * pcm_node_vol_fraction * t.pcm_vol_fraction
  let rc1 := dictSet base_rc "C_PCM" (solid.pcm_c * pcm_volume)
  let volume' := t.volume - pcm_volume
  let fr1 := t.vol_fractions.set t.pcm_water_node
    (pcm_node_vol_fraction * (1 - t.pcm_vol_fraction))
  let fr2 := fr1.map (fun x => x / fr1.sum)
  let rc2 := dictMulAt rc1 (hostCKey t.pcm_water_node) (1 - t.pcm_vol_fraction)
  let rc3 := dictSet rc2 (hostRKey t.pcm_water_node)
    (pcm_volume / solid.pcm_conductivity)
  (rc3, { t with volume := volume', vol_fractions := fr2 })

/-- `TankWithPCM.get_pcm_heat_xfer`: the source body is
`raise NotImplementedError()`; a concrete subclass must override it. The
override's value for the current state is the `pcm_heat_xfer_impl` field. -/
def get_pcm_heat_xfer (t : TankWithPCM) : Except String ℚ :=
  match t.pcm_heat_xfer_impl with
  | none => Except.error "NotImplementedError"
  | some q => Except.ok q

/-- `TankWithPCM.update_inputs(schedule_inputs)`:
`super().update_inputs` updates only `current_schedule` (the source comment
states "self.inputs_init are not updated here, only self.current_schedule";
the base class is outside the given sources, so that effect is taken from the
comment/spec). Then: read `Zone Temperature (C)` from the schedule (Python
`KeyError` when absent), take the water-draw heats, evaluate the PCM
capability, add the flux to entry `pcm_water_node` and subtract it from entry
`t_pcm_idx` of the heats vector, store the flux in `pcm_heat_to_water`, and
assign `inputs_init = concatenate(([t_zone], heats_to_model))`. -/
def update_inputs (t : TankWithPCM) (schedule_inputs : List (String × ℚ)) :
    Except String TankWithPCM :=
  let t1 := { t with current_schedule := schedule_inputs }
  match dictGet t1.current_schedule "Zone Temperature (C)" with
  | none => Except.error "KeyError"
  | some t_zone =>
    match get_pcm_heat_xfer t1 with
    | Except.error e => Except.error e
    | Except.ok q =>
      let heats1 := listAddAt t1.water_draw_heats t1.pcm_water_node q
      let heats2 := listSubAt heats1 t1.t_pcm_idx q
      Except.ok
        { t1 with
          pcm_heat_to_water := some q
          inputs_init := t_zone :: heats2 }

/-- Dot product of two numpy vectors (`a.dot(b)`). -/
def dot (a b : List ℚ) : ℚ := (List.zipWith (fun x y => x * y) a b).sum

/-- `a.max()` of a numpy vector (0 on the empty vector, where numpy raises;
no claim touches that case). -/
def listMax : List ℚ → ℚ
  | [] => 0
  | x :: xs => xs.foldl max x

/-- `a.min()` of a numpy vector. -/
def listMin : List ℚ → ℚ
  | [] => 0
  | x :: xs => xs.foldl min x

/-- `TankWithPCM.generate_results`: starting from the base class's results
mapping (a parameter here), when `verbosity >= 6` add the five PCM metrics,
otherwise return the base results unchanged. -/
def generate_results (t : TankWithPCM) (base_results : List (String × ℚ)) :
    List (String × ℚ) :=
  if 6 ≤ t.verbosity then
    let water_states := t.states.take t.n_nodes
    let r1 := dictSet base_results "Hot Water Average Temperature (C)"
      (dot water_states t.vol_fractions)
    let r2 := dictSet r1 "Hot Water Maximum Temperature (C)"
      (listMax water_states)
    let r3 := dictSet r2 "Hot Water Minimum Temperature (C)"
      (listMin water_states)
    let r4 := dictSet r3 "Water Tank PCM Temperature (C)"
      (t.states.getD t.t_pcm_idx 0)
    let r5 := dictSet r4 "Water Tank PCM Heat Injected (W)" t.h_injections
    r5
  else base_results

/-! ### Helper lemmas about the dict and vector operations -/

theorem getD_set_self (l : List ℚ) (n : ℕ) (a : ℚ) (h : n < l.length) :
    (l.set n a).getD n 0 = a := by
  induction l generalizing n with
  | nil => simp at h
  | cons hd tl ih =>
    cases n with
    | zero => simp
    | succ m =>
      simp only [List.set, List.getD, List.length_cons] at *
      exact ih m (by omega)

theorem getD_set_ne (l : List ℚ) (n m : ℕ) (a : ℚ) (h : n ≠ m) :
    (l.set n a).getD m 0 = l.getD m 0 := by
  induction l generalizing n m with
  | nil => simp
  | cons hd tl ih =>
    cases n with
    | zero =>
      cases m with
      | zero => exact absurd rfl h
      | succ m' => simp [List.set, List.getD]
    | succ n' =>
      cases m with
      | zero => simp [List.set, List.getD]
      | succ m' =>
        simp only [List.set, List.getD_cons_succ]
        exact ih n' m' (by omega)

theorem sum_set_eq (l : List ℚ) (n : ℕ) (a : ℚ) (h : n < l.length) :
    (l.set n a).sum = l.sum - l.getD n 0 + a := by
  induction l generalizing n with
  | nil => simp at h
  | cons hd tl ih =>
    cases n with
    | zero => simp [List.set]; ring
    | succ m =>
      simp only [List.set, List.sum_cons, List.getD_cons_succ]
      rw [ih m (by simpa using h)]
      ring

theorem sum_map_div (l : List ℚ) (s : ℚ) :
    (l.map (fun x => x / s)).sum = l.sum / s := by
  induction l with
  | nil => simp
  | cons hd tl ih => simp [ih, add_div]

theorem getD_map_div (l : List ℚ) (s : ℚ) (n : ℕ) (h : n < l.length) :
    (l.map (fun x => x / s)).getD n 0 = l.getD n 0 / s := by
  induction l generalizing n with
  | nil => simp at h
  | cons hd tl ih =>
    cases n with
    | zero => simp
    | succ m =>
      simp only [List.map, List.getD_cons_succ]
      exact ih m (by simpa using h)

theorem set_getD_self (l : List ℚ) (n : ℕ) :
    l.set n (l.getD n 0) = l := by
  induction l generalizing n with
  | nil => simp
  | cons hd tl ih =>
    cases n with
    | zero => simp
    | succ m =>
      simp only [List.set, List.getD_cons_succ, List.cons.injEq, true_and]
      simpa [List.getD] using ih m

theorem getD_mem (l : List ℚ) (n : ℕ) (h : n < l.length) :
    l.getD n 0 ∈ l := by
  induction l generalizing n with
  | nil => simp at h
  | cons hd tl ih =>
    cases n with
    | zero => simp
    | succ m =>
      simp only [List.getD_cons_succ]
      exact List.mem_cons_of_mem _ (ih m (by simpa using h))

theorem dictGet_dictSet_self (m : List (String × ℚ)) (k : String) (v : ℚ) :
    dictGet (dictSet m k v) k = some v := by
  induction m with
  | nil => simp [dictGet, dictSet]
  | cons hd tl ih =>
    obtain ⟨k', v'⟩ := hd
    by_cases h : k' = k <;> simp [dictGet, dictSet, h, ih]

theorem dictGet_dictSet_ne (m : List (String × ℚ)) {k k' : String} (v : ℚ)
    (h : k' ≠ k) : dictGet (dictSet m k v) k' = dictGet m k' := by
  induction m with
  | nil => simp [dictGet, dictSet, Ne.symm h]
  | cons hd tl ih =>
    obtain ⟨k'', v''⟩ := hd
    by_cases h2 : k'' = k
    · subst h2
      simp [dictGet, dictSet, Ne.symm h, h]
    · by_cases h3 : k'' = k' <;> simp [dictGet, dictSet, h2, h3, h, ih]

theorem dictGet_dictMulAt_self (m : List (String × ℚ)) (k : String) (c v : ℚ)
    (h : dictGet m k = some v) :
    dictGet (dictMulAt m k c) k = some (v * c) := by
  induction m with
  | nil => simp [dictGet] at h
  | cons hd tl ih =>
    obtain ⟨k', v'⟩ := hd
    by_cases h2 : k' = k
    · subst h2
      simp [dictGet] at h
      simp [dictGet, dictMulAt, h]
    · simp [dictGet, h2] at h
      simp [dictGet, dictMulAt, h2, ih h]

theorem dictGet_dictMulAt_ne (m : List (String × ℚ)) {k k' : String} (c : ℚ)
    (h : k' ≠ k) : dictGet (dictMulAt m k c) k' = dictGet m k' := by
  induction m with
  | nil => simp [dictMulAt]
  | cons hd tl ih =>
    obtain ⟨k'', v''⟩ := hd
    by_cases h2 : k'' = k
    · subst h2
      simp [dictGet, dictMulAt, Ne.symm h]
    · by_cases h3 : k'' = k' <;> simp [dictGet, dictMulAt, h2, h3, h, ih]

theorem dictGet_dictMulAt_one (m : List (String × ℚ)) (k k' : String) :
    dictGet (dictMulAt m k 1) k' = dictGet m k' := by
  induction m with
  | nil => simp [dictMulAt]
  | cons hd tl ih =>
    obtain ⟨k'', v''⟩ := hd
    by_cases h2 : k'' = k
    · subst h2
      by_cases h3 : k'' = k' <;> simp [dictGet, dictMulAt, h3]
    · simp [dictGet, dictMulAt, h2, ih]

theorem hostCKey_ne_cpcm (p : ℕ) : hostCKey p ≠ "C_PCM" := by
  intro h
  have h2 := congrArg String.data h
  rw [hostCKey, String.data_append] at h2
  simp at h2

theorem cpcm_ne_hostRKey (p : ℕ) : ("C_PCM" : String) ≠ hostRKey p := by
  intro h
  have h2 := congrArg String.data h
  rw [hostRKey, String.data_append] at h2
  simp at h2

theorem hostCKey_ne_hostRKey (p q : ℕ) : hostCKey p ≠ hostRKey q := by
  intro h
  have h2 := congrArg String.data h
  rw [hostCKey, hostRKey, String.data_append, String.data_append] at h2
  simp at h2

/-- The RC mapping returned by `load_rc_data`, written as the three dict
operations the source performs in order. -/
theorem load_rc_data_rc (t : TankWithPCM) (rc : List (String × ℚ)) :
    (load_rc_data t rc).1
      = dictSet
          (dictMulAt
            (dictSet rc "C_PCM"
              (solid.pcm_c * (t.volume * t.vol_fractions.getD t.pcm_water_node 0
                * t.pcm_vol_fraction)))
            (hostCKey t.pcm_water_node) (1 - t.pcm_vol_fraction))
          (hostRKey t.pcm_water_node)
          ((t.volume * t.vol_fractions.getD t.pcm_water_node 0
            * t.pcm_vol_fraction) / solid.pcm_conductivity) := rfl

/-- Structural effect of `load_rc_data` on the tank state, read off the
source: volume drops by `pcm_volume`, fractions are scaled at the host node
and renormalized, and the configuration fields are untouched. -/
theorem load_rc_data_state (t : TankWithPCM) (rc : List (String × ℚ)) :
    (load_rc_data t rc).2.volume
      = t.volume - t.volume * t.vol_fractions.getD t.pcm_water_node 0
          * t.pcm_vol_fraction ∧
    (load_rc_data t rc).2.vol_fractions
      = (t.vol_fractions.set t.pcm_water_node
          (t.vol_fractions.getD t.pcm_water_node 0 * (1 - t.pcm_vol_fraction))).map
          (fun x => x / (t.vol_fractions.set t.pcm_water_node
            (t.vol_fractions.getD t.pcm_water_node 0
              * (1 - t.pcm_vol_fraction))).sum) ∧
    (load_rc_data t rc).2.pcm_water_node = t.pcm_water_node ∧
    (load_rc_data t rc).2.pcm_vol_fraction = t.pcm_vol_fraction :=
  ⟨rfl, rfl, rfl, rfl⟩

/-! ### Example instances used by concrete witnesses and counterexamples -/

/-- A `TankWithPCM` record with every field at its blank value; concrete
examples below override the fields they need. -/
def tank0 : TankWithPCM :=
  { volume := 0
    vol_fractions := []
    pcm_water_node := 0
    pcm_vol_fraction := 0
    t_pcm_idx := 0
    h_pcm_idx := 0
    state_names := []
    input_names := []
    n_nodes := 0
    verbosity := 0
    states := []
    h_injections := 0
    inputs_init := []
    current_schedule := []
    pcm_heat_to_water := none
    pcm_heat_xfer_impl := none
    water_draw_heats := [] }

/-- The spec's numeric scenario: 100 L tank, 10 nodes of fraction 1/10 each,
PCM on node 5 holding half that node's volume. -/
def tankC8 : TankWithPCM :=
  { tank0 with
    volume := 100
    vol_fractions := List.replicate 10 (1/10)
    pcm_water_node := 5
    pcm_vol_fraction := 1/2 }

/-- A base RC mapping carrying the host node's capacitance entry. -/
def baseC8 : List (String × ℚ) := [("C_WH6", 41830)]

/-- C8: for total_volume = 100, vol_fraction[5] = 1/10, pcm_vol_fraction =
1/2 with pcm_water_node = 5, `load_rc_data` computes pcm_volume = 5 (the
tank volume drops to 95), sets `C_PCM` to 1717.6 * 5 = 8588, and sets
`R_PCM_WH6` to 5 / 0.28 = 125/7 ≈ 17.857. -/
theorem load_rc_data_scenario_values :
    dictGet (load_rc_data tankC8 baseC8).1 "C_PCM" = some 8588 ∧
    dictGet (load_rc_data tankC8 baseC8).1 "R_PCM_WH6" = some (125 / 7) ∧
    (load_rc_data tankC8 baseC8).2.volume = 95 := by
  have e1 : ("C_WH" ++ toString 6 : String) = "C_WH6" := by decide
  have e2 : ("R_PCM_WH" ++ toString 6 : String) = "R_PCM_WH6" := by decide
  have n1 : ("C_WH6" : String) ≠ "C_PCM" := by decide
  have n2 : ("C_WH6" : String) ≠ "R_PCM_WH6" := by decide
  have n3 : ("C_PCM" : String) ≠ "R_PCM_WH6" := by decide
  refine ⟨?_, ?_, ?_⟩ <;>
    norm_num [load_rc_data, dictGet, dictSet, dictMulAt, tankC8, tank0, baseC8,
      solid, hostCKey, hostRKey, e1, e2, n1, n2, n3, n1.symm, n2.symm, n3.symm]

/-- C3: for a valid configuration (host node in range, nonnegative fractions
summing to 1, pcm_vol_fraction in [0,1)), the volume-fraction sequence left
behind by `load_rc_data` sums to exactly 1. -/
theorem load_rc_data_fractions_sum_one (t : TankWithPCM)
    (rc : List (String × ℚ))
    (hp : t.pcm_water_node < t.vol_fractions.length)
    (hnn : ∀ x ∈ t.vol_fractions, 0 ≤ x)
    (hsum : t.vol_fractions.sum = 1)
    (hf0 : 0 ≤ t.pcm_vol_fraction) (hf1 : t.pcm_vol_fraction < 1) :
    (load_rc_data t rc).2.vol_fractions.sum = 1 := by
  obtain ⟨-, hfr, -, -⟩ := load_rc_data_state t rc
  set h := t.vol_fractions.getD t.pcm_water_node 0 with hh
  have hmem : h ∈ t.vol_fractions := getD_mem _ _ hp
  have hh0 : 0 ≤ h := hnn _ hmem
  have hh1 : h ≤ 1 := hsum ▸ List.single_le_sum hnn _ hmem
  have hs : (t.vol_fractions.set t.pcm_water_node
      (h * (1 - t.pcm_vol_fraction))).sum = 1 - h * t.pcm_vol_fraction := by
    rw [sum_set_eq _ _ _ hp, hsum, ← hh]
    ring
  have hspos : 0 < 1 - h * t.pcm_vol_fraction := by nlinarith
  rw [hfr, sum_map_div, hs, div_self (ne_of_gt hspos)]

/-- Witness for C3 on the spec's 10-node scenario tank. -/
theorem load_rc_data_fractions_sum_one_witness :
    (load_rc_data tankC8 baseC8).2.vol_fractions.sum = 1 := by
  apply load_rc_data_fractions_sum_one tankC8 baseC8
  · decide
  · intro x hx
    simp only [tankC8, tank0, List.mem_replicate] at hx
    rw [hx.2]
    norm_num
  · norm_num [tankC8, tank0]
  · norm_num [tankC8, tank0]
  · norm_num [tankC8, tank0]

/-- C4: at pcm_vol_fraction = 0 the augmentation is a numeric no-op: every
base RC entry (the host node's capacitance among them) keeps its unmodified
base value, the two freshly added PCM entries are numerically 0, and the
total volume and the volume-fraction sequence are unchanged. -/
theorem load_rc_data_noop_at_zero (t : TankWithPCM)
    (rc : List (String × ℚ))
    (hf : t.pcm_vol_fraction = 0)
    (hsum : t.vol_fractions.sum = 1) :
    (∀ k, k ≠ "C_PCM" → k ≠ hostRKey t.pcm_water_node →
      dictGet (load_rc_data t rc).1 k = dictGet rc k) ∧
    dictGet (load_rc_data t rc).1 (hostCKey t.pcm_water_node)
      = dictGet rc (hostCKey t.pcm_water_node) ∧
    dictGet (load_rc_data t rc).1 "C_PCM" = some 0 ∧
    dictGet (load_rc_data t rc).1 (hostRKey t.pcm_water_node) = some 0 ∧
    (load_rc_data t rc).2.volume = t.volume ∧
    (load_rc_data t rc).2.vol_fractions = t.vol_fractions := by
  obtain ⟨hvol, hfr, -, -⟩ := load_rc_data_state t rc
  have hbase : ∀ k, k ≠ "C_PCM" → k ≠ hostRKey t.pcm_water_node →
      dictGet (load_rc_data t rc).1 k = dictGet rc k := by
    intro k hk1 hk2
    rw [load_rc_data_rc, dictGet_dictSet_ne _ _ hk2, hf]
    simp only [mul_zero, sub_zero]
    rw [dictGet_dictMulAt_one]
    exact dictGet_dictSet_ne _ _ hk1
  refine ⟨hbase, hbase _ (hostCKey_ne_cpcm _) (hostCKey_ne_hostRKey _ _), ?_, ?_, ?_, ?_⟩
  · rw [load_rc_data_rc, dictGet_dictSet_ne _ _ (cpcm_ne_hostRKey _), hf]
    simp only [mul_zero, sub_zero]
    rw [dictGet_dictMulAt_one, dictGet_dictSet_self]
  · rw [load_rc_data_rc, dictGet_dictSet_self, hf]
    simp only [mul_zero, zero_div]
  · rw [hvol, hf]
    ring
  · rw [hfr, hf]
    simp only [sub_zero, mul_one, set_getD_self, hsum, div_one]
    exact List.map_id _

/-- Witness for C4: a 2-node tank with pcm_vol_fraction = 0. -/
theorem load_rc_data_noop_at_zero_witness :
    dictGet (load_rc_data { tankC8 with pcm_vol_fraction := 0 } baseC8).1 "C_WH6"
      = dictGet baseC8 "C_WH6" ∧
    (load_rc_data { tankC8 with pcm_vol_fraction := 0 } baseC8).2.volume = 100 ∧
    (load_rc_data { tankC8 with pcm_vol_fraction := 0 } baseC8).2.vol_fractions
      = List.replicate 10 (1/10) := by
  obtain ⟨h1, -, -, -, h5, h6⟩ :=
    load_rc_data_noop_at_zero { tankC8 with pcm_vol_fraction := 0 } baseC8 rfl
      (by norm_num [tankC8, tank0])
  refine ⟨?_, ?_, ?_⟩
  · have e1 : hostCKey ({ tankC8 with pcm_vol_fraction := 0 } : TankWithPCM).pcm_water_node
        = "C_WH6" := by decide
    rw [← e1]
    exact h1 _ (by decide) (by decide)
  · rw [h5]
    norm_num [tankC8, tank0]
  · rw [h6]
    norm_num [tankC8, tank0]

/-- C7: with a fixed base network whose host-node capacitance entry is
`C > 0`, the host capacitance entry `load_rc_data` produces equals
`C * (1 - pcm_vol_fraction)`; it is strictly decreasing as pcm_vol_fraction
grows and stays strictly positive for every pcm_vol_fraction < 1. -/
theorem host_capacitance_decreasing_positive (t : TankWithPCM)
    (rc : List (String × ℚ)) (C : ℚ)
    (hC : dictGet rc (hostCKey t.pcm_water_node) = some C)
    (hCpos : 0 < C) :
    (∀ f : ℚ, dictGet (load_rc_data { t with pcm_vol_fraction := f } rc).1
      (hostCKey t.pcm_water_node) = some (C * (1 - f))) ∧
    (∀ f₁ f₂ : ℚ, f₁ < f₂ → C * (1 - f₂) < C * (1 - f₁)) ∧
    (∀ f : ℚ, f < 1 → 0 < C * (1 - f)) := by
  refine ⟨?_, ?_, ?_⟩
  · intro f
    rw [show ({ t with pcm_vol_fraction := f } : TankWithPCM).pcm_water_node
      = t.pcm_water_node from rfl, load_rc_data_rc]
    rw [dictGet_dictSet_ne _ _ (hostCKey_ne_hostRKey _ _)]
    have h1 : dictGet (dictSet rc "C_PCM"
        (solid.pcm_c * (({ t with pcm_vol_fraction := f } : TankWithPCM).volume
          * ({ t with pcm_vol_fraction := f } : TankWithPCM).vol_fractions.getD
            t.pcm_water_node 0
          * ({ t with pcm_vol_fraction := f } : TankWithPCM).pcm_vol_fraction)))
        (hostCKey t.pcm_water_node) = some C := by
      rw [dictGet_dictSet_ne _ _ (hostCKey_ne_cpcm _)]
      exact hC
    rw [dictGet_dictMulAt_self _ _ _ _ h1]
  · intro f₁ f₂ hlt
    nlinarith
  · intro f hlt
    nlinarith

/-- Witness for C7: base entry C_WH6 = 100, fractions at 1/4 and 1/2. -/
theorem host_capacitance_decreasing_positive_witness :
    dictGet (load_rc_data
        { tankC8 with pcm_water_node := 5, pcm_vol_fraction := 1/4 }
        [("C_WH6", 100)]).1 (hostCKey 5) = some (100 * (1 - 1/4)) ∧
    (100 : ℚ) * (1 - 1/2) < 100 * (1 - 1/4) ∧
    (0 : ℚ) < 100 * (1 - 1/2) := by
  obtain ⟨hformula, hmono, hpos⟩ :=
    host_capacitance_decreasing_positive
      { tankC8 with pcm_water_node := 5 } [("C_WH6", 100)] 100
      (by decide) (by norm_num)
  exact ⟨hformula (1/4), hmono (1/4) (1/2) (by norm_num), hpos (1/2) (by norm_num)⟩

/-- C1: for the scalar flux q returned by the PCM heat-transfer capability,
`update_inputs` adds q to the host water node's entry and subtracts q from
the PCM node's entry of the same per-node injection vector (all other
entries untouched), so the net injection added in the step is exactly zero:
the injection part of the produced input vector sums to the same total as
the incoming water-draw vector. -/
theorem update_inputs_conservation (t : TankWithPCM)
    (sched : List (String × ℚ)) (q tz : ℚ)
    (himpl : t.pcm_heat_xfer_impl = some q)
    (hz : dictGet sched "Zone Temperature (C)" = some tz)
    (hp : t.pcm_water_node < t.water_draw_heats.length)
    (hj : t.t_pcm_idx < t.water_draw_heats.length)
    (hne : t.pcm_water_node ≠ t.t_pcm_idx) :
    ∃ t', update_inputs t sched = Except.ok t' ∧
      t'.inputs_init.tail.getD t.pcm_water_node 0
        = t.water_draw_heats.getD t.pcm_water_node 0 + q ∧
      t'.inputs_init.tail.getD t.t_pcm_idx 0
        = t.water_draw_heats.getD t.t_pcm_idx 0 - q ∧
      (∀ i, i ≠ t.pcm_water_node → i ≠ t.t_pcm_idx →
        t'.inputs_init.tail.getD i 0 = t.water_draw_heats.getD i 0) ∧
      t'.inputs_init.tail.sum = t.water_draw_heats.sum := by
  simp only [update_inputs, get_pcm_heat_xfer, himpl, hz]
  refine ⟨_, rfl, ?_, ?_, ?_, ?_⟩
  · simp only [List.tail_cons, listSubAt, listAddAt]
    rw [getD_set_ne _ _ _ _ (Ne.symm hne), getD_set_self _ _ _ hp]
  · simp only [List.tail_cons, listSubAt, listAddAt]
    rw [getD_set_self _ _ _ (by simpa using hj), getD_set_ne _ _ _ _ hne]
  · intro i hi1 hi2
    simp only [List.tail_cons, listSubAt, listAddAt]
    rw [getD_set_ne _ _ _ _ (Ne.symm hi2), getD_set_ne _ _ _ _ (Ne.symm hi1)]
  · simp only [List.tail_cons, listSubAt, listAddAt]
    rw [sum_set_eq _ _ _ (by simpa using hj), sum_set_eq _ _ _ hp,
      getD_set_ne _ _ _ _ hne]
    ring

/-- A tank with a concrete heat-transfer implementation returning 5 W, host
node 0, PCM injection entry 2, and water-draw heats [10, 20, 30]. -/
def tankC1 : TankWithPCM :=
  { tank0 with
    pcm_water_node := 0
    t_pcm_idx := 2
    water_draw_heats := [10, 20, 30]
    pcm_heat_xfer_impl := some 5 }

/-- Witness for C1 on `tankC1`. -/
theorem update_inputs_conservation_witness :
    ∃ t', update_inputs tankC1 [("Zone Temperature (C)", 21)] = Except.ok t' ∧
      t'.inputs_init.tail.sum = tankC1.water_draw_heats.sum := by
  obtain ⟨t', hok, -, -, -, hsum⟩ :=
    update_inputs_conservation tankC1 [("Zone Temperature (C)", 21)] 5 21 rfl
      (by decide) (by decide) (by decide) (by decide)
  exact ⟨t', hok, hsum⟩

/-- C2 (amended): `update_inputs` composes the step's input vector — zone
temperature prepended to the adjusted injection vector — and stores it in
`inputs_init`, overwriting the cached snapshot; only the superclass portion
of the update leaves `inputs_init` untouched (it updates just
`current_schedule`, per the source comment). -/
theorem update_inputs_assigns_inputs_init (t : TankWithPCM)
    (sched : List (String × ℚ)) (q tz : ℚ)
    (himpl : t.pcm_heat_xfer_impl = some q)
    (hz : dictGet sched "Zone Temperature (C)" = some tz) :
    ∃ t', update_inputs t sched = Except.ok t' ∧
      t'.inputs_init
        = tz :: listSubAt (listAddAt t.water_draw_heats t.pcm_water_node q)
            t.t_pcm_idx q ∧
      t'.current_schedule = sched := by
  simp only [update_inputs, get_pcm_heat_xfer, himpl, hz]
  exact ⟨_, rfl, rfl, rfl⟩

/-- A tank whose cached `inputs_init` is `[99]` before the step. -/
def tankC2 : TankWithPCM :=
  { tank0 with
    pcm_water_node := 0
    t_pcm_idx := 1
    water_draw_heats := [10, 20]
    pcm_heat_xfer_impl := some 5
    inputs_init := [99] }

/-- Counterexample to C2 as stated: running `update_inputs` on `tankC2` does
modify the `inputs_init` field — the source's last line assigns the freshly
composed vector to it, so it is not left untouched. -/
theorem update_inputs_changes_inputs_init_cex :
    ∃ t', update_inputs tankC2 [("Zone Temperature (C)", 21)] = Except.ok t' ∧
      t'.inputs_init ≠ tankC2.inputs_init := by
  refine ⟨_, rfl, ?_⟩
  norm_num [update_inputs, get_pcm_heat_xfer, tankC2, tank0, listAddAt,
    listSubAt, dictGet]

/-- Witness for the amended C2 on `tankC2`. -/
theorem update_inputs_assigns_inputs_init_witness :
    ∃ t', update_inputs tankC2 [("Zone Temperature (C)", 21)] = Except.ok t' ∧
      t'.inputs_init = [21, 15, 15] ∧
      t'.current_schedule = [("Zone Temperature (C)", 21)] := by
  obtain ⟨t', hok, hinit, hsched⟩ :=
    update_inputs_assigns_inputs_init tankC2 [("Zone Temperature (C)", 21)]
      5 21 rfl (by decide)
  refine ⟨t', hok, ?_, hsched⟩
  rw [hinit]
  norm_num [tankC2, tank0, listAddAt, listSubAt]

/-- C6: with no concrete PCM heat-transfer implementation supplied, calling
`get_pcm_heat_xfer` signals `NotImplementedError`, and `update_inputs`
(which calls it after the schedule lookup) propagates that same error
uncaught, substituting no default value. -/
theorem get_pcm_heat_xfer_unimplemented (t : TankWithPCM)
    (himpl : t.pcm_heat_xfer_impl = none) :
    get_pcm_heat_xfer t = Except.error "NotImplementedError" ∧
    ∀ (sched : List (String × ℚ)) (tz : ℚ),
      dictGet sched "Zone Temperature (C)" = some tz →
      update_inputs t sched = Except.error "NotImplementedError" := by
  constructor
  · simp [get_pcm_heat_xfer, himpl]
  · intro sched tz hz
    simp [update_inputs, get_pcm_heat_xfer, himpl, hz]

/-- Witness for C6 on the blank tank (no implementation supplied). -/
theorem get_pcm_heat_xfer_unimplemented_witness :
    get_pcm_heat_xfer tank0 = Except.error "NotImplementedError" ∧
    update_inputs tank0 [("Zone Temperature (C)", 21)]
      = Except.error "NotImplementedError" := by
  obtain ⟨h1, h2⟩ := get_pcm_heat_xfer_unimplemented tank0 rfl
  exact ⟨h1, h2 _ 21 (by decide)⟩

/-- `findIdx?` finds an index whenever the sought name is in the registry. -/
theorem findIdx?_isSome_of_mem (l : List String) (s : String) (h : s ∈ l) :
    (l.findIdx? (fun x => x = s)).isSome = true := by
  induction l with
  | nil => simp at h
  | cons hd tl ih =>
    rw [List.findIdx?_cons]
    by_cases he : hd = s
    · simp [he]
    · have hmem : s ∈ tl := by
        rcases List.mem_cons.mp h with h1 | h1
        · exact absurd h1.symm he
        · exact h1
      simp [he, ih hmem]

/-- C5 (amended): the constructor performs no validation of
`pcm_vol_fraction`: for every value of the fraction — inside or outside
[0,1) — construction succeeds (provided the name registries contain "T_PCM"
and "H_PCM"), storing the fraction as given. -/
theorem mk_tank_accepts_any_fraction (p : ℕ) (f : ℚ) (b : BaseTankData)
    (hT : "T_PCM" ∈ b.state_names) (hH : "H_PCM" ∈ b.input_names) :
    ∃ t, mk_tank p f b = Except.ok t ∧ t.pcm_vol_fraction = f ∧
      t.pcm_water_node = p ∧ t.volume = b.volume := by
  obtain ⟨ti, hti⟩ :=
    Option.isSome_iff_exists.mp (findIdx?_isSome_of_mem _ _ hT)
  obtain ⟨hi, hhi⟩ :=
    Option.isSome_iff_exists.mp (findIdx?_isSome_of_mem _ _ hH)
  simp only [mk_tank, hti, hhi]
  exact ⟨_, rfl, rfl, rfl, rfl⟩

/-- Base data with the two required names present. -/
def baseC5 : BaseTankData :=
  { volume := 50
    vol_fractions := [1/2, 1/2]
    state_names := ["T_WH1", "T_PCM"]
    input_names := ["T_AMB", "H_WH1", "H_PCM"]
    n_nodes := 1
    verbosity := 0
    states := []
    h_injections := 0
    inputs_init := []
    current_schedule := []
    water_draw_heats := [] }

/-- Counterexample to C5 as stated: pcm_vol_fraction = 2 lies outside [0,1),
yet the constructor succeeds instead of raising — no fail-fast validation
exists in the source. -/
theorem mk_tank_no_validation_cex :
    ∃ t, mk_tank 5 2 baseC5 = Except.ok t ∧ t.pcm_vol_fraction = 2 :=
  ⟨_, rfl, rfl⟩

/-- Witness for the amended C5 at the out-of-range fraction 3/2. -/
theorem mk_tank_accepts_any_fraction_witness :
    ∃ t, mk_tank 0 (3/2) baseC5 = Except.ok t ∧ t.pcm_vol_fraction = 3/2 ∧
      t.pcm_water_node = 0 ∧ t.volume = baseC5.volume :=
  mk_tank_accepts_any_fraction 0 (3/2) baseC5 (by decide) (by decide)

/-- The five result keys the PCM layer adds when verbose. -/
def pcmResultKeys : List String :=
  ["Hot Water Average Temperature (C)", "Hot Water Maximum Temperature (C)",
   "Hot Water Minimum Temperature (C)", "Water Tank PCM Temperature (C)",
   "Water Tank PCM Heat Injected (W)"]

/-- C9: below the verbosity threshold 6, `generate_results` returns the base
results untouched — no PCM key is added, zero-filled or otherwise; at or
above the threshold it adds exactly the five documented keys, leaving every
other entry of the mapping as it was. -/
theorem generate_results_threshold (t : TankWithPCM)
    (res : List (String × ℚ)) :
    (t.verbosity < 6 → generate_results t res = res) ∧
    (6 ≤ t.verbosity →
      (∀ k, k ∉ pcmResultKeys →
        dictGet (generate_results t res) k = dictGet res k) ∧
      (∀ k ∈ pcmResultKeys,
        (dictGet (generate_results t res) k).isSome = true)) := by
  constructor
  · intro hv
    simp [generate_results, Nat.not_le.mpr hv]
  · intro hv
    constructor
    · intro k hk
      simp only [pcmResultKeys, List.mem_cons, List.not_mem_nil, or_false,
        not_or] at hk
      obtain ⟨h1, h2, h3, h4, h5⟩ := hk
      simp only [generate_results, hv, if_true]
      rw [dictGet_dictSet_ne _ _ h5, dictGet_dictSet_ne _ _ h4,
        dictGet_dictSet_ne _ _ h3, dictGet_dictSet_ne _ _ h2,
        dictGet_dictSet_ne _ _ h1]
    · intro k hk
      simp only [pcmResultKeys, List.mem_cons, List.not_mem_nil,
        or_false] at hk
      simp only [generate_results, hv, if_true]
      rcases hk with rfl | rfl | rfl | rfl | rfl
      · rw [dictGet_dictSet_ne _ _ (by decide), dictGet_dictSet_ne _ _ (by decide),
          dictGet_dictSet_ne _ _ (by decide), dictGet_dictSet_ne _ _ (by decide),
          dictGet_dictSet_self]
        rfl
      · rw [dictGet_dictSet_ne _ _ (by decide), dictGet_dictSet_ne _ _ (by decide),
          dictGet_dictSet_ne _ _ (by decide), dictGet_dictSet_self]
        rfl
      · rw [dictGet_dictSet_ne _ _ (by decide), dictGet_dictSet_ne _ _ (by decide),
          dictGet_dictSet_self]
        rfl
      · rw [dictGet_dictSet_ne _ _ (by decide), dictGet_dictSet_self]
        rfl
      · rw [dictGet_dictSet_self]
        rfl

/-- Witness for C9: a quiet tank (verbosity 3) adds nothing; a verbose tank
(verbosity 7) carries the PCM temperature key. -/
theorem generate_results_threshold_witness :
    generate_results { tank0 with verbosity := 3 } [("X", 1)] = [("X", 1)] ∧
    (dictGet (generate_results { tank0 with verbosity := 7 } [("X", 1)])
      "Water Tank PCM Temperature (C)").isSome = true := by
  constructor
  · exact (generate_results_threshold { tank0 with verbosity := 3 }
      [("X", 1)]).1 (by decide)
  · exact ((generate_results_threshold { tank0 with verbosity := 7 }
      [("X", 1)]).2 (by decide)).2 _ (by decide)

/-- One `load_rc_data` call's effect on the fraction sequence under a valid
strict configuration: length preserved, renormalized sum 1, and the host
fraction becomes `h(1-f) / (1-hf)`, still strictly between 0 and 1; the
volume scales by `(1-hf)`. -/
theorem load_rc_frac_step (t : TankWithPCM) (rc : List (String × ℚ))
    (hp : t.pcm_water_node < t.vol_fractions.length)
    (hsum : t.vol_fractions.sum = 1)
    (hf0 : 0 < t.pcm_vol_fraction) (hf1 : t.pcm_vol_fraction < 1)
    (hh0 : 0 < t.vol_fractions.getD t.pcm_water_node 0)
    (hh1 : t.vol_fractions.getD t.pcm_water_node 0 < 1) :
    (load_rc_data t rc).2.vol_fractions.length = t.vol_fractions.length ∧
    (load_rc_data t rc).2.vol_fractions.sum = 1 ∧
    (load_rc_data t rc).2.vol_fractions.getD t.pcm_water_node 0
      = (t.vol_fractions.getD t.pcm_water_node 0 * (1 - t.pcm_vol_fraction))
        / (1 - t.vol_fractions.getD t.pcm_water_node 0 * t.pcm_vol_fraction) ∧
    0 < (load_rc_data t rc).2.vol_fractions.getD t.pcm_water_node 0 ∧
    (load_rc_data t rc).2.vol_fractions.getD t.pcm_water_node 0 < 1 ∧
    (load_rc_data t rc).2.volume
      = t.volume * (1 - t.vol_fractions.getD t.pcm_water_node 0
          * t.pcm_vol_fraction) := by
  obtain ⟨hvol, hfr, -, -⟩ := load_rc_data_state t rc
  have hs : (t.vol_fractions.set t.pcm_water_node
      (t.vol_fractions.getD t.pcm_water_node 0 * (1 - t.pcm_vol_fraction))).sum
      = 1 - t.vol_fractions.getD t.pcm_water_node 0 * t.pcm_vol_fraction := by
    rw [sum_set_eq _ _ _ hp, hsum]
    ring
  have hspos : 0 < 1 - t.vol_fractions.getD t.pcm_water_node 0
      * t.pcm_vol_fraction := by nlinarith
  have hval : (load_rc_data t rc).2.vol_fractions.getD t.pcm_water_node 0
      = (t.vol_fractions.getD t.pcm_water_node 0 * (1 - t.pcm_vol_fraction))
        / (1 - t.vol_fractions.getD t.pcm_water_node 0 * t.pcm_vol_fraction) := by
    rw [hfr, hs, getD_map_div _ _ _ (by rw [List.length_set]; exact hp),
      getD_set_self _ _ _ hp]
  refine ⟨?_, ?_, hval, ?_, ?_, ?_⟩
  · rw [hfr]
    simp [List.length_set]
  · rw [hfr, sum_map_div, hs, div_self (ne_of_gt hspos)]
  · rw [hval]
    exact div_pos (by nlinarith) hspos
  · rw [hval, div_lt_one hspos]
    nlinarith
  · rw [hvol]
    ring

/-- C10 (amended): `load_rc_data` is not idempotent. For a valid strict
configuration (positive volume, fractions summing to 1, host fraction
strictly between 0 and 1, pcm_vol_fraction in (0,1)), a second call shrinks
the total volume strictly below the value after one call and leaves a
fraction sequence different from the one-call sequence: the augmentation
must run exactly once. -/
theorem load_rc_data_not_idempotent (t : TankWithPCM)
    (rc1 rc2 : List (String × ℚ))
    (hp : t.pcm_water_node < t.vol_fractions.length)
    (hV : 0 < t.volume)
    (hsum : t.vol_fractions.sum = 1)
    (hf0 : 0 < t.pcm_vol_fraction) (hf1 : t.pcm_vol_fraction < 1)
    (hh0 : 0 < t.vol_fractions.getD t.pcm_water_node 0)
    (hh1 : t.vol_fractions.getD t.pcm_water_node 0 < 1) :
    (load_rc_data (load_rc_data t rc1).2 rc2).2.volume
      < (load_rc_data t rc1).2.volume ∧
    (load_rc_data (load_rc_data t rc1).2 rc2).2.vol_fractions
      ≠ (load_rc_data t rc1).2.vol_fractions := by
  obtain ⟨len1, sum1, val1, pos1, lt1, vol1⟩ :=
    load_rc_frac_step t rc1 hp hsum hf0 hf1 hh0 hh1
  have hproj1 : (load_rc_data t rc1).2.pcm_water_node = t.pcm_water_node := rfl
  have hproj2 : (load_rc_data t rc1).2.pcm_vol_fraction
      = t.pcm_vol_fraction := rfl
  have hp1 : (load_rc_data t rc1).2.pcm_water_node
      < (load_rc_data t rc1).2.vol_fractions.length := by
    rw [hproj1, len1]
    exact hp
  obtain ⟨len2, sum2, val2, pos2, lt2, vol2⟩ :=
    load_rc_frac_step (load_rc_data t rc1).2 rc2 hp1 sum1
      (hproj2 ▸ hf0) (hproj2 ▸ hf1) (hproj1 ▸ pos1) (hproj1 ▸ lt1)
  have hspos : 0 < 1 - t.vol_fractions.getD t.pcm_water_node 0
      * t.pcm_vol_fraction := by nlinarith
  have hV1 : 0 < (load_rc_data t rc1).2.volume := by
    rw [vol1]
    exact mul_pos hV hspos
  constructor
  · rw [vol2, hproj1, hproj2]
    nlinarith [mul_pos (mul_pos hV1 (hproj1 ▸ pos1)) hf0]
  · intro heq
    have hlt2 : (load_rc_data (load_rc_data t rc1).2 rc2).2.vol_fractions.getD
        t.pcm_water_node 0
        < (load_rc_data t rc1).2.vol_fractions.getD t.pcm_water_node 0 := by
      have hd2 : 0 < 1 - (load_rc_data t rc1).2.vol_fractions.getD
          t.pcm_water_node 0 * t.pcm_vol_fraction := by
        nlinarith [pos1, lt1, hf0, hf1]
      rw [hproj1] at val2
      rw [val2, hproj2, div_lt_iff₀ hd2]
      have key : 0 < (1 - (load_rc_data t rc1).2.vol_fractions.getD
          t.pcm_water_node 0)
          * ((load_rc_data t rc1).2.vol_fractions.getD t.pcm_water_node 0
            * t.pcm_vol_fraction) :=
        mul_pos (by linarith) (mul_pos pos1 hf0)
      nlinarith [key]
    rw [heq] at hlt2
    exact lt_irrefl _ hlt2

/-- The degenerate single-node tank: the host node carries the whole volume
fraction. -/
def tankC10 : TankWithPCM :=
  { tank0 with
    volume := 100
    vol_fractions := [1]
    pcm_water_node := 0
    pcm_vol_fraction := 1/2 }

/-- Counterexample to C10 as stated: with pcm_vol_fraction = 1/2 > 0 and a
positive host fraction (1), calling `load_rc_data` twice leaves exactly the
same fraction sequence as calling it once — renormalization restores the
single entry to 1 each time — so "a different fraction sequence" fails. -/
theorem load_rc_data_twice_same_fractions_cex :
    0 < tankC10.pcm_vol_fraction ∧
    0 < tankC10.vol_fractions.getD tankC10.pcm_water_node 0 ∧
    (load_rc_data (load_rc_data tankC10 []).2 []).2.vol_fractions
      = (load_rc_data tankC10 []).2.vol_fractions := by
  refine ⟨by norm_num [tankC10, tank0], by norm_num [tankC10, tank0], ?_⟩
  norm_num [load_rc_data, tankC10, tank0]

/-- Witness for the amended C10 on the spec's 10-node scenario tank. -/
theorem load_rc_data_not_idempotent_witness :
    (load_rc_data (load_rc_data tankC8 baseC8).2 baseC8).2.volume
      < (load_rc_data tankC8 baseC8).2.volume ∧
    (load_rc_data (load_rc_data tankC8 baseC8).2 baseC8).2.vol_fractions
      ≠ (load_rc_data tankC8 baseC8).2.vol_fractions := by
  apply load_rc_data_not_idempotent tankC8 baseC8 baseC8
  · decide
  · norm_num [tankC8, tank0]
  · norm_num [tankC8, tank0]
  · norm_num [tankC8, tank0]
  · norm_num [tankC8, tank0]
  · norm_num [tankC8, tank0]
  · norm_num [tankC8, tank0]
